import Mathlib

/-!
Verification development for the claude-web backend (Express + Next.js dashboard).

This file gives a shallow embedding, in Lean 4, of the pure core of the
backend services:

* `SessionStore.generateTitle` / `SessionStore.upsert` / `SessionStore.getTotalUsage`
  (src/backend/src/services/session-store.ts),
* the `str_replace` and `insert` commands of the text-editor tool and the
  bash tool event handlers (src/backend/src/tools/text-editor.ts),
* `parsePercentage` / `parseResetTime` / `parseUsageOutput`
  (src/backend/src/services/claude-usage.ts),
* `buildDirectoryTree` (src/backend/src/services/file-system.ts),
* `ClaudeAgentService.streamTask` (src/backend/src/services/claude-agent.ts)
  together with the SSE route handler (routes/agent.ts),
* the `TerminalSessionManager` (terminal-session service).

Filesystem, process and network effects are replaced by explicit inputs
(file contents as strings, directory trees as an inductive type, process
I/O as event traces); JavaScript strings are modelled at the level of
Unicode code points, and JavaScript numbers by `Nat` / `Int` / `Rat` as
appropriate for the quantity being modelled.
-/

/-! ## JavaScript string helpers

The backend normalizes prompts with `prompt.replace(/\s+/g, " ").trim()`.
`isJsWhitespace` is the character class `\s` of JavaScript regular
expressions (also the class used by `String.prototype.trim`). -/

def isJsWhitespace (c : Char) : Bool :=
  c == ' ' || c == '\t' || c == '\n' || c == '\r' || c == '\x0b' || c == '\x0c' ||
  c == '\u00A0' || c == '\u1680' || ('\u2000' ≤ c && c ≤ '\u200A') ||
  c == '\u2028' || c == '\u2029' || c == '\u202F' || c == '\u205F' ||
  c == '\u3000' || c == '\uFEFF'

/-- One pass of `replace(/\s+/g, " ")`: each maximal run of whitespace
becomes a single space.  The boolean records whether the previous character
was part of a whitespace run. -/
def collapseWsGo : Bool → List Char → List Char
  | _, [] => []
  | inRun, c :: cs =>
    if isJsWhitespace c then
      if inRun then collapseWsGo true cs
      else ' ' :: collapseWsGo true cs
    else c :: collapseWsGo false cs

def collapseWs (cs : List Char) : List Char :=
  collapseWsGo false cs

/-- JavaScript `String.prototype.trim` on a character list. -/
def jsTrimL (cs : List Char) : List Char :=
  ((cs.dropWhile isJsWhitespace).reverse.dropWhile isJsWhitespace).reverse

/-- JavaScript `String.prototype.trim`. -/
def jsTrimStr (s : String) : String :=
  ⟨jsTrimL s.data⟩

/-! ## Session store (src/backend/src/services/session-store.ts)

`SessionStore` keeps a `Map<string, SessionMetadata>`; we model the map as
an insertion-ordered association list (JavaScript `Map` iterates in
insertion order and `set` on an existing key keeps its position).  Token
counts are modelled as `Nat`, dollar costs as `Rat`.  ISO timestamp strings
produced from the wall clock are passed in as an explicit `now` argument. -/

structure TokenTotals where
  input : Nat
  output : Nat
deriving Repr, DecidableEq

structure SessionMetadata where
  id : String
  title : String
  directory : String
  messageCount : Nat
  createdAt : String
  lastActivity : String
  totalTokens : TokenTotals
  totalCostUsd : Rat
deriving Repr, DecidableEq

/-- The optional `usage` argument of `upsert` / `updateUsage`:
`{ input: number; output: number; costUsd?: number }`. -/
structure UsageInput where
  input : Nat
  output : Nat
  costUsd : Option Rat
deriving Repr, DecidableEq

abbrev SessionMap := List (String × SessionMetadata)

def sessionsGet (st : SessionMap) (id : String) : Option SessionMetadata :=
  match st with
  | [] => none
  | (k, v) :: rest => if k = id then some v else sessionsGet rest id

/-- `Map.set` semantics: replace in place if the key is present, otherwise
append (insertion order preserved). -/
def sessionsSet (st : SessionMap) (id : String) (v : SessionMetadata) : SessionMap :=
  match st with
  | [] => [(id, v)]
  | (k, w) :: rest => if k = id then (k, v) :: rest else (k, w) :: sessionsSet rest id v

/-- The whitespace-normalized form of a prompt:
`prompt.replace(/\s+/g, " ").trim()`. -/
def normalizedPrompt (prompt : String) : String :=
  ⟨jsTrimL (collapseWs prompt.data)⟩

/-- JavaScript `s.substring(0, n)`. -/
def jsSubstringTo (s : String) (n : Nat) : String :=
  ⟨s.data.take n⟩

/-- `SessionStore.generateTitle`: whitespace-normalize the prompt, keep it
verbatim if at most 50 characters, otherwise truncate to 50 characters and
append an ellipsis. -/
def generateTitle (prompt : String) : String :=
  let cleaned : String := normalizedPrompt prompt
  if cleaned.length ≤ 50 then cleaned
  else jsSubstringTo cleaned 50 ++ "..."

/-- The cost amount added by one `upsert` / `updateUsage` call:
`usage.costUsd || 0` (and nothing when `usage` is absent). -/
def addedCost (usage : Option UsageInput) : Rat :=
  match usage with
  | some u => u.costUsd.getD 0
  | none => 0

/-- `SessionStore.upsert(id, prompt, directory, usage?)`.  Returns the new
map together with the created/updated record. -/
def storeUpsert (st : SessionMap) (id prompt directory now : String)
    (usage : Option UsageInput) : SessionMap × SessionMetadata :=
  match sessionsGet st id with
  | some existing =>
    let updated : SessionMetadata :=
      { existing with
        messageCount := existing.messageCount + 1
        lastActivity := now
        totalTokens :=
          match usage with
          | some u => ⟨existing.totalTokens.input + u.input, existing.totalTokens.output + u.output⟩
          | none => existing.totalTokens
        totalCostUsd := existing.totalCostUsd + addedCost usage }
    (sessionsSet st id updated, updated)
  | none =>
    let session : SessionMetadata :=
      { id := id
        title := generateTitle prompt
        directory := directory
        messageCount := 1
        createdAt := now
        lastActivity := now
        totalTokens :=
          match usage with
          | some u => ⟨u.input, u.output⟩
          | none => ⟨0, 0⟩
        totalCostUsd := addedCost usage }
    (sessionsSet st id session, session)

/-! ### Total usage (`SessionStore.getTotalUsage`) -/

structure TotalUsage where
  input : Nat
  output : Nat
  costUsd : Rat
deriving Repr, DecidableEq

/-- One bucket of the external `stats-cache.json` `modelUsage` record. -/
structure ModelUsageData where
  inputTokens : Nat
  outputTokens : Nat
  cacheReadInputTokens : Nat
  cacheCreationInputTokens : Nat
  costUSD : Rat
deriving Repr, DecidableEq

/-- `SessionStore.getClaudeCodeUsage`: `none` models the stats file being
absent (or unreadable, both of which return `null` in the source); when
present, usage is summed across all model buckets with cache tokens folded
into `input`. -/
def getClaudeCodeUsage (stats : Option (List (String × ModelUsageData))) :
    Option TotalUsage :=
  match stats with
  | none => none
  | some modelUsage =>
    some (modelUsage.foldl
      (fun acc kv =>
        { input := acc.input + kv.2.inputTokens + kv.2.cacheReadInputTokens +
            kv.2.cacheCreationInputTokens
          output := acc.output + kv.2.outputTokens
          costUsd := acc.costUsd + kv.2.costUSD })
      ⟨0, 0, 0⟩)

/-- `SessionStore.getTotalUsage`: prefer the external stats file, fall back
to summing the locally tracked sessions. -/
def getTotalUsage (st : SessionMap) (stats : Option (List (String × ModelUsageData))) :
    TotalUsage :=
  match getClaudeCodeUsage stats with
  | some u => u
  | none =>
    st.foldl
      (fun acc kv =>
        { input := acc.input + kv.2.totalTokens.input
          output := acc.output + kv.2.totalTokens.output
          costUsd := acc.costUsd + kv.2.totalCostUsd })
      ⟨0, 0, 0⟩

/-! ## Text editor tool (src/backend/src/tools/text-editor.ts)

`str_replace` counts occurrences with `content.split(old_str).length - 1`
and replaces with `content.replace(old_str, new_str)`.  We model the
occurrence count (JavaScript `split` on a non-empty separator produces one
piece per non-overlapping, left-to-right occurrence plus one; on the empty
separator it produces one piece per character) and first-occurrence
replacement at the level of character lists. -/

/-- Non-overlapping, left-to-right occurrence count of a pattern, as
computed by `content.split(pat).length - 1` for non-empty `pat`. -/
def countOcc (pat : List Char) : List Char → Nat
  | [] => 0
  | c :: cs =>
    if pat.isPrefixOf (c :: cs) then
      countOcc pat (List.drop (pat.length - 1) cs) + 1
    else
      countOcc pat cs
termination_by l => l.length
decreasing_by
  · simp only [List.length_drop, List.length_cons]
    omega
  · simp only [List.length_cons]
    omega

/-- `content.split(old_str).length - 1` as a JavaScript number: for the
empty separator, `split` returns one element per character (so the result
is `content.length - 1`, which is `-1` for empty content). -/
def occurrencesJs (content oldStr : String) : Int :=
  if oldStr.data.isEmpty then (content.length : Int) - 1
  else (countOcc oldStr.data content.data : Int)

/-- Substring test (used to state properties about error messages and file
contents; `true` iff `pat` occurs contiguously in the list). -/
def containsSubL (pat : List Char) : List Char → Bool
  | [] => pat.isEmpty
  | c :: cs => pat.isPrefixOf (c :: cs) || containsSubL pat cs

def containsSubStr (pat s : String) : Bool :=
  containsSubL pat.data s.data

/-- JavaScript GetSubstitution for a string search value (which has no
capture groups): expand the substitution patterns of the replacement
template — `$$` to a dollar sign, `$&` to the matched substring, `$`
followed by a backquote (`\x60`) to the portion of the subject preceding
the match, `$` followed by a quote (`\x27`) to the portion following it.
Any other `$` (including a trailing one, or `$1` when there are no
captures) stays literal. -/
def getSubstitution (matched before after : List Char) : List Char → List Char
  | [] => []
  | [c] => [c]
  | c :: d :: rest =>
    if c = '$' then
      if d = '$' then '$' :: getSubstitution matched before after rest
      else if d = '&' then matched ++ getSubstitution matched before after rest
      else if d = '\x60' then before ++ getSubstitution matched before after rest
      else if d = '\x27' then after ++ getSubstitution matched before after rest
      else c :: getSubstitution matched before after (d :: rest)
    else c :: getSubstitution matched before after (d :: rest)

/-- The scan of `content.replace(old, new)` for a non-empty string
pattern: find the first (leftmost) occurrence, accumulating the already
scanned part in reverse in `pre`, and splice in the substituted
replacement. -/
def replaceFirstGo (pat rep : List Char) : List Char → List Char → List Char
  | _, [] => []
  | pre, c :: cs =>
    if pat.isPrefixOf (c :: cs) then
      getSubstitution pat pre.reverse (List.drop pat.length (c :: cs)) rep ++
        List.drop pat.length (c :: cs)
    else c :: replaceFirstGo pat rep (c :: pre) cs

/-- JavaScript `content.replace(old, new)` with a string pattern: replace
the first (leftmost) occurrence with the GetSubstitution-expanded
replacement; an empty pattern matches at position 0. -/
def replaceFirstL (pat rep s : List Char) : List Char :=
  if pat.isEmpty then getSubstitution [] [] s rep ++ s
  else replaceFirstGo pat rep [] s

/-- Result of a text-editor command on a file: either an error message
(the file is not written) or a rewritten file content plus the success
message. -/
inductive EditResult where
  | error (msg : String)
  | written (newContent : String) (msg : String)
deriving Repr, DecidableEq

/-- The `str_replace` case of `handleTextEditorTool`, for an existing file
with content `content`. -/
def strReplaceCommand (filePath content oldStr newStr : String) : EditResult :=
  let occurrences : Int := occurrencesJs content oldStr
  if occurrences = 0 then
    .error "Error: old_str not found in file. Make sure the text matches exactly, including whitespace."
  else if occurrences > 1 then
    .error ("Error: old_str appears " ++ toString occurrences ++
      " times in file. It must be unique. Add more context to make it unique.")
  else
    .written ⟨replaceFirstL oldStr.data newStr.data content.data⟩
      ("Successfully replaced text in " ++ filePath)

/-- `Math.max(0, Math.min(lines.length, input.insert_line - 1))` — the
clamped 0-based splice index of the `insert` command. -/
def insertClampIdx (content : String) (insertLine : Int) : Nat :=
  (max 0 (min (((content.splitOn "\n").length : Int)) (insertLine - 1))).toNat

/-- The `insert` case of `handleTextEditorTool`, for an existing file:
clamp the 1-indexed `insert_line` into range and splice `new_str` in as a
new line.  Returns (message, new file content). -/
def insertCommand (filePath content : String) (insertLine : Int) (newStr : String) :
    String × String :=
  let lines := content.splitOn "\n"
  let insertIdx : Nat := insertClampIdx content insertLine
  let newLines := lines.take insertIdx ++ newStr :: lines.drop insertIdx
  ("Successfully inserted text at line " ++ toString insertLine ++ " in " ++ filePath,
   String.intercalate "\n" newLines)

/-! ## Bash tool (src/backend/src/tools/text-editor.ts, `handleBashTool`)

`handleBashTool` wraps `spawn` in a promise that is resolved by event
handlers: `stdout`/`stderr` data events, a `close` event, an `error`
event, and a 30-second `setTimeout`.  We model one execution as a fold of
the handler bodies over the trace of events delivered by the event loop;
the promise value is the first `resolve` (later `resolve` calls on a
settled promise are no-ops, which the fold models by freezing the state
once `resolved` is set). -/

def MAX_OUTPUT_SIZE : Nat := 100 * 1024

def COMMAND_TIMEOUT : Nat := 30000

def truncationMarker : String := "\n[Output truncated - exceeded maximum size]"

structure BashState where
  stdout : String
  stderr : String
  killed : Bool
  resolved : Option String
deriving Repr, DecidableEq

inductive BashEvent where
  /-- a chunk arriving on the child process stdout -/
  | stdoutData (chunk : String)
  /-- a chunk arriving on the child process stderr -/
  | stderrData (chunk : String)
  /-- the `close` event with the exit code (`none` = killed by signal) -/
  | close (code : Option Int)
  /-- the `error` event (e.g. spawn failure) -/
  | procError (message : String)
  /-- the 30-second `setTimeout` callback firing -/
  | timeoutFire
deriving Repr, DecidableEq

/-- The `close` handler body: assemble the result string from the
accumulated stdout, stderr and exit code. -/
def bashCloseOutput (stdout stderr : String) (code : Option Int) : String :=
  let output := if jsTrimStr stdout ≠ "" then stdout else ""
  let output :=
    if jsTrimStr stderr ≠ "" then
      (if output ≠ "" then output ++ "\n" else output) ++ "STDERR:\n" ++ stderr
    else output
  let output :=
    match code with
    | some c =>
      if c ≠ 0 then (if output ≠ "" then output ++ "\n" else output) ++ "Exit code: " ++ toString c
      else output
    | none => output
  if output = "" then "(no output)" else output

def bashStep (st : BashState) (e : BashEvent) : BashState :=
  if st.resolved.isSome then st
  else
    match e with
    | .stdoutData chunk =>
      if st.stdout.length + chunk.length ≤ MAX_OUTPUT_SIZE then
        { st with stdout := st.stdout ++ chunk }
      else if !st.killed then
        { st with
          killed := true
          stdout := st.stdout ++ truncationMarker }
      else st
    | .stderrData chunk =>
      if st.stderr.length + chunk.length ≤ MAX_OUTPUT_SIZE then
        { st with stderr := st.stderr ++ chunk }
      else st
    | .close code =>
      { st with resolved := some (bashCloseOutput st.stdout st.stderr code) }
    | .procError message =>
      { st with resolved := some ("Error executing command: " ++ message) }
    | .timeoutFire =>
      if !st.killed then
        { st with
          killed := true
          resolved := some ("Command timed out after " ++ toString (COMMAND_TIMEOUT / 1000) ++ " seconds") }
      else st

def bashInit : BashState := { stdout := "", stderr := "", killed := false, resolved := none }

def bashRun (events : List BashEvent) : BashState :=
  events.foldl bashStep bashInit

/-- `handleBashTool(input, workingDirectory)`: the early returns for
`restart` and a missing command, otherwise the promise resolved by the
event trace (`none` = the trace alone did not settle the promise yet). -/
def handleBashTool (restart : Bool) (command : String) (events : List BashEvent) :
    Option String :=
  if restart then some "Bash session restarted."
  else if command = "" then some "Error: command is required"
  else (bashRun events).resolved

/-- An event that always settles the promise when it is still pending
(`timeoutFire` does not qualify: it is skipped when the truncation path
already killed the process). -/
def BashEvent.isSettling : BashEvent → Bool
  | .close _ => true
  | .procError _ => true
  | _ => false

/-! ## Usage-output parser (src/backend/src/services/claude-usage.ts)

`parseUsageOutput` strips ANSI escape sequences, splits into lines, tracks
the current section header and, for each line containing `"% used"`,
records a `UsageLimit` built from the percentage on that line and the
`Resets ... (tz)` pattern on the following line. -/

structure UsageLimit where
  name : String
  percentUsed : Nat
  resetTime : String
  resetTimezone : Option String
deriving Repr, DecidableEq

/-- `ClaudeUsageData` without the `timestamp`/`rawOutput` fields (the
timestamp is taken from the wall clock and is not modelled). -/
structure ClaudeUsageData where
  currentSession : Option UsageLimit
  currentWeekAllModels : Option UsageLimit
  currentWeekSonnetOnly : Option UsageLimit
deriving Repr, DecidableEq

/-- Case-insensitive prefix match (the `/i` flag). -/
def isPrefixOfCI : List Char → List Char → Bool
  | [], _ => true
  | _ :: _, [] => false
  | p :: ps, c :: cs => (p.toLower == c.toLower) && isPrefixOfCI ps cs

def digitsToNat (ds : List Char) : Nat :=
  ds.foldl (fun n c => n * 10 + (c.toNat - '0'.toNat)) 0

/-- Does the rest of the line after a digit run match `%\s*used` (with
`/i` on the letters)? -/
def percentTail : List Char → Bool
  | '%' :: rest => isPrefixOfCI "used".data (rest.dropWhile isJsWhitespace)
  | _ => false

/-- Leftmost match of `/(\d+)%\s*used/i`, returning the captured digits as
a number.  A greedy digit run followed by a failed `%` check cannot be
rescued by backtracking (a shorter run is followed by another digit), so
the scan advances one character on failure, exactly like the regex
engine. -/
def parsePercentageL : List Char → Option Nat
  | [] => none
  | c :: cs =>
    if c.isDigit then
      let run := List.takeWhile Char.isDigit (c :: cs)
      let rest := List.drop run.length (c :: cs)
      if percentTail rest then some (digitsToNat run)
      else parsePercentageL cs
    else parsePercentageL cs

/-- `parsePercentage`: the captured number, or 0 when the pattern does not
occur. -/
def parsePercentage (line : String) : Nat :=
  (parsePercentageL line.data).getD 0

/-- Line terminators, which `.` does not match in a JavaScript regex. -/
def isLineTerm (c : Char) : Bool :=
  c == '\n' || c == '\r' || c == ' ' || c == ' '

/-- Match `\s*\(([^)]+)\)` at the start of the list, returning the capture
inside the parentheses. -/
def parenTail (l : List Char) : Option (List Char) :=
  match l.dropWhile isJsWhitespace with
  | '(' :: rest =>
    let inner := rest.takeWhile (fun c => c != ')')
    if inner.isEmpty then none
    else
      match rest.drop inner.length with
      | ')' :: _ => some inner
      | _ => none
  | _ => none

/-- The lazy group `(.+?)` of `/Resets?\s+(.+?)\s*\(([^)]+)\)/i`: grow the
capture one character at a time and stop at the first point where the
remainder matches `\s*\(([^)]+)\)`. -/
def lazyCapture (cap : List Char) : List Char → Option (List Char × List Char)
  | [] => none
  | c :: cs =>
    if isLineTerm c then none
    else
      match parenTail cs with
      | some tz => some (cap ++ [c], tz)
      | none => lazyCapture (cap ++ [c]) cs

/-- Try `/Resets?\s+(.+?)\s*\(([^)]+)\)/i` anchored at the current
position: `Reset`, an optional `s`, at least one whitespace character,
then the lazy capture. -/
def tryResetAt (l : List Char) : Option (List Char × List Char) :=
  if isPrefixOfCI "Reset".data l then
    let rest := l.drop 5
    let rest2 :=
      match rest with
      | c :: cs => if c.toLower == 's' then cs else rest
      | [] => rest
    match rest2 with
    | c :: cs =>
      if isJsWhitespace c then lazyCapture [] (cs.dropWhile isJsWhitespace)
      else none
    | [] => none
  else none

/-- Leftmost match of the full reset regex anywhere in the line. -/
def matchResetFull : List Char → Option (List Char × List Char)
  | [] => none
  | c :: cs =>
    match tryResetAt (c :: cs) with
    | some r => some r
    | none => matchResetFull cs

/-- Try the fallback `/Resets?\s+(.+)/i` anchored at the current position:
the greedy capture runs to the end of the line (at least one character). -/
def tryResetSimpleAt (l : List Char) : Option (List Char) :=
  if isPrefixOfCI "Reset".data l then
    let rest := l.drop 5
    let rest2 :=
      match rest with
      | c :: cs => if c.toLower == 's' then cs else rest
      | [] => rest
    match rest2 with
    | c :: cs =>
      if isJsWhitespace c then
        let cap := (cs.dropWhile isJsWhitespace).takeWhile (fun ch => !isLineTerm ch)
        if cap.isEmpty then none else some cap
      else none
    | [] => none
  else none

def matchResetSimple : List Char → Option (List Char)
  | [] => none
  | c :: cs =>
    match tryResetSimpleAt (c :: cs) with
    | some r => some r
    | none => matchResetSimple cs

/-- `parseResetTime`: `(time, timezone?)`, with `("", none)` when nothing
matches. -/
def parseResetTime (line : String) : String × Option String :=
  match matchResetFull line.data with
  | some (cap, tz) => (jsTrimStr ⟨cap⟩, some (⟨tz⟩ : String))
  | none =>
    match matchResetSimple line.data with
    | some cap => (jsTrimStr ⟨cap⟩, none)
    | none => ("", none)

/-- Section-header detection on a (trimmed) line. -/
def sectionOf (sec : String) (l : String) : String :=
  if containsSubStr "Current session" l then "session"
  else if containsSubStr "Current week" l && containsSubStr "all models" l then "weekAll"
  else if containsSubStr "Current week" l && containsSubStr "Sonnet" l then "weekSonnet"
  else sec

def limitName (sec : String) : String :=
  if sec = "session" then "Current Session"
  else if sec = "weekAll" then "Weekly (All Models)"
  else "Weekly (Sonnet Only)"

def storeLimit (res : ClaudeUsageData) (sec : String) (limit : UsageLimit) : ClaudeUsageData :=
  if sec = "session" then { res with currentSession := some limit }
  else if sec = "weekAll" then { res with currentWeekAllModels := some limit }
  else if sec = "weekSonnet" then { res with currentWeekSonnetOnly := some limit }
  else res

/-- The line loop of `parseUsageOutput`: `sec` is `currentSection`, and the
head of the remaining list plays the role of `lines[i + 1]`. -/
def parseUsageGo (sec : String) (res : ClaudeUsageData) : List String → ClaudeUsageData
  | [] => res
  | line :: rest =>
    let l := jsTrimStr line
    let sec2 := sectionOf sec l
    let res2 :=
      if containsSubStr "% used" l then
        let nextLine := jsTrimStr (rest.headD "")
        let reset := parseResetTime nextLine
        storeLimit res sec2
          { name := limitName sec2
            percentUsed := parsePercentage l
            resetTime := reset.1
            resetTimezone := reset.2 }
      else res
    parseUsageGo sec2 res2 rest

/-- Match one ANSI escape sequence `\x1b\[[0-9;]*m` (or, with
`letterOnly`, `\x1b\[[0-9;]*[A-Za-z]`) at the head of the list, returning
what follows it. -/
def matchAnsi (letterOnly : Bool) (l : List Char) : Option (List Char) :=
  match l with
  | e :: b :: rest =>
    if e = '\x1b' ∧ b = '[' then
      match rest.dropWhile (fun c => c.isDigit || c == ';') with
      | c :: tail => if (if letterOnly then c.isAlpha else c == 'm') then some tail else none
      | [] => none
    else none
  | _ => none

/-- One global-replace pass deleting every match of the escape-sequence
regex (`m`-terminated in the first pass, any-letter-terminated in the
second): on a failed match the scan advances one character.  The fuel
argument (instantiated with the list length, which every step strictly
decreases) only bounds the recursion. -/
def stripAnsiGo (letterOnly : Bool) : Nat → List Char → List Char
  | 0, l => l
  | _, [] => []
  | fuel + 1, c :: cs =>
    match matchAnsi letterOnly (c :: cs) with
    | some tail => stripAnsiGo letterOnly fuel tail
    | none => c :: stripAnsiGo letterOnly fuel cs

def stripAnsi (letterOnly : Bool) (l : List Char) : List Char :=
  stripAnsiGo letterOnly l.length l

/-- `output.replace(/\x1b\[[0-9;]*m/g, "").replace(/\x1b\[[0-9;]*[A-Za-z]/g, "")`. -/
def cleanAnsiStr (s : String) : String :=
  ⟨stripAnsi true (stripAnsi false s.data)⟩

def emptyUsageData : ClaudeUsageData := ⟨none, none, none⟩

/-- JavaScript `split("\n")` at the character level. -/
def splitLinesGo (acc : List Char) : List Char → List String
  | [] => [⟨acc.reverse⟩]
  | c :: cs =>
    if c = '\n' then ⟨acc.reverse⟩ :: splitLinesGo [] cs
    else splitLinesGo (c :: acc) cs

/-- `parseUsageOutput`. -/
def parseUsageOutput (output : String) : ClaudeUsageData :=
  parseUsageGo "" emptyUsageData (splitLinesGo [] (cleanAnsiStr output).data)

/-! ## Directory tree service (src/backend/src/services/file-system.ts)

The filesystem is modelled as an inductive tree of named entries;
`buildDirectoryTree` walks a directory's entry list.  The random `uuidv4`
node ids are not modelled; `localeCompare` inside the sort comparator is
modelled as code-point order (the claims proved below do not depend on the
collation order, only on which entries survive the walk). -/

inductive FSEntry where
  | file (name : String)
  | dir (name : String) (entries : List FSEntry)
deriving Repr

def FSEntry.name : FSEntry → String
  | .file n => n
  | .dir n _ => n

def FSEntry.isDir : FSEntry → Bool
  | .file _ => false
  | .dir _ _ => true

/-- `TreeNode` (children are `none` for files, `some []` for directories
at the depth bound or with unreadable contents). -/
inductive TreeNode where
  | mk (name : String) (type : String) (path : String) (children : Option (List TreeNode))
deriving Repr

def TreeNode.name : TreeNode → String
  | .mk n _ _ _ => n

def TreeNode.children : TreeNode → Option (List TreeNode)
  | .mk _ _ _ c => c

def SKIP_DIRECTORIES : List String :=
  ["node_modules", "dist", "build", "__pycache__", ".git", "Library",
   "Photos Library.photoslibrary", "Photo Booth Library", ".Trash", "Applications"]

/-- The sort comparator: folders first, then names (in the source,
`localeCompare`; modelled as code-point order). -/
def entryLe (a b : FSEntry) : Bool :=
  if a.isDir && !b.isDir then true
  else if !a.isDir && b.isDir then false
  else a.name ≤ b.name

/-- Should this entry be skipped?  Hidden files other than `.env.example`,
and the fixed denylist. -/
def skipEntry (name : String) : Bool :=
  (name.startsWith "." && name ≠ ".env.example") || SKIP_DIRECTORIES.contains name

/-- The body of `buildDirectoryTree` after `readdir` and sorting: walk the
sorted entry list, skipping hidden and denylisted names, recursing into
directories while `currentDepth < maxDepth`. -/
def buildTreeAux : Nat → Nat → List FSEntry → String → List TreeNode
  | _, _, [], _ => []
  | maxDepth, currentDepth, e :: rest, basePath =>
    if skipEntry e.name then buildTreeAux maxDepth currentDepth rest basePath
    else
      let relativePath := if basePath = "" then "/" ++ e.name else basePath ++ "/" ++ e.name
      let node :=
        match e with
        | .file n => TreeNode.mk n "file" relativePath none
        | .dir n entries =>
          if currentDepth < maxDepth then
            TreeNode.mk n "folder" relativePath
              (some (buildTreeAux maxDepth (currentDepth + 1)
                (entries.mergeSort entryLe) relativePath))
          else TreeNode.mk n "folder" relativePath (some [])
      node :: buildTreeAux maxDepth currentDepth rest basePath
termination_by maxDepth currentDepth es _ => (maxDepth - currentDepth, es.length)
decreasing_by
  all_goals first
    | (apply Prod.Lex.left
       omega)
    | (apply Prod.Lex.right
       simp)

/-- `buildDirectoryTree(rootPath, maxDepth, currentDepth, basePath)` on a
directory whose entry list is `entries`. -/
def buildDirectoryTree (entries : List FSEntry) (maxDepth : Nat)
    (currentDepth : Nat := 0) (basePath : String := "") : List TreeNode :=
  buildTreeAux maxDepth currentDepth (entries.mergeSort entryLe) basePath

/-- `p` holds for the name of every node of the forest, at every depth. -/
def forestAllNames (p : String → Bool) : List TreeNode → Bool
  | [] => true
  | .mk n _ _ none :: ts => p n && forestAllNames p ts
  | .mk n _ _ (some cs) :: ts => p n && forestAllNames p cs && forestAllNames p ts

/-! ## Agent task runner (src/backend/src/services/claude-agent.ts)

`streamTask` is an async generator driven by the Anthropic messages API.
We model the API as an oracle: a list of assistant turns, each carrying the
streamed text deltas, the tool-use blocks of the final message (with the
string each `executeTool` call returns) and the stop reason.  The resolved
session id (`getOrCreateSession`, which either reuses the supplied id or
draws a fresh uuid) is passed in already resolved. -/

structure ToolUseBlock where
  id : String
  name : String
  result : String
deriving Repr, DecidableEq

structure AgentTurn where
  textDeltas : List String
  toolUses : List ToolUseBlock
  stopReason : Option String
deriving Repr, DecidableEq

/-- The event vocabulary of the stream layer (`AgentStreamEvent` plus the
`connected` kind used by the SSE route and the frontend). -/
inductive AgentStreamEvent where
  | connected (sessionId : Option String)
  | tokenSession (sessionId : String)
  | tokenText (text : String)
  | toolUse (id name : String)
  | toolResult (id result : String)
  | complete (sessionId : String) (stopReason : Option String)
  | error (message : String)
deriving Repr, DecidableEq

def AgentStreamEvent.isConnected : AgentStreamEvent → Bool
  | .connected _ => true
  | _ => false

/-- The `while (continueLoop)` body of `streamTask`: token events for each
text delta, then either tool events and another API round, or a final
`complete` event. -/
def streamTaskGo (sessionId : String) : List AgentTurn → List AgentStreamEvent
  | [] => []
  | t :: rest =>
    let tokenEvents := t.textDeltas.map AgentStreamEvent.tokenText
    if t.toolUses.isEmpty then
      tokenEvents ++ [.complete sessionId t.stopReason]
    else
      tokenEvents ++
        (t.toolUses.flatMap fun u => [.toolUse u.id u.name, .toolResult u.id u.result]) ++
        streamTaskGo sessionId rest

/-- `ClaudeAgentService.streamTask`: the very first yield is
`{ type: "token", data: { sessionId: session.id } }`. -/
def streamTask (sessionId : String) (turns : List AgentTurn) : List AgentStreamEvent :=
  .tokenSession sessionId :: streamTaskGo sessionId turns

/-- One SSE frame written by the `GET /api/agent/stream` route handler. -/
inductive SSEFrame where
  /-- `data: {"type":"connected"}` — written before the stream is
  consumed; carries no session id. -/
  | connectedFrame
  | eventFrame (e : AgentStreamEvent)
deriving Repr, DecidableEq

/-- The frames written by the route handler for one request (error-free
consumption of the generator). -/
def streamRouteFrames (sessionId : String) (turns : List AgentTurn) : List SSEFrame :=
  .connectedFrame :: (streamTask sessionId turns).map .eventFrame

/-! ## Terminal session manager (terminal-session service)

One pty per session id.  The manager state tracks every pty ever spawned
(`handle`, the session id captured by its `onData`/`onExit` closures,
whether the OS process is still alive, and whether its exit notification
has been delivered yet) together with the `sessions` map.  `pty.kill()`
terminates the OS process; the registered `onExit` callback — which does
`this.sessions.delete(sessionId)` for the captured id — runs later, when
the event loop delivers the exit notification. -/

structure PtyProc where
  handle : Nat
  sid : String
  alive : Bool
  exitDelivered : Bool
deriving Repr, DecidableEq

structure TermState where
  ptys : List PtyProc
  sessions : List (String × Nat)
  nextHandle : Nat
deriving Repr, DecidableEq

def termInit : TermState := { ptys := [], sessions := [], nextHandle := 0 }

def sessionsLookup (m : List (String × Nat)) (sid : String) : Option Nat :=
  match m with
  | [] => none
  | (k, v) :: rest => if k = sid then some v else sessionsLookup rest sid

def sessionsRemove (m : List (String × Nat)) (sid : String) : List (String × Nat) :=
  match m with
  | [] => []
  | (k, v) :: rest => if k = sid then rest else (k, v) :: sessionsRemove rest sid

def markDead (ptys : List PtyProc) (h : Nat) : List PtyProc :=
  ptys.map fun p => if p.handle = h then { p with alive := false } else p

def markDelivered (ptys : List PtyProc) (h : Nat) : List PtyProc :=
  ptys.map fun p => if p.handle = h then { p with exitDelivered := true } else p

def findPty (ptys : List PtyProc) (h : Nat) : Option PtyProc :=
  ptys.find? fun p => p.handle = h

/-- `TerminalSessionManager.kill(sessionId)`: look the session up, kill its
pty process and remove the map entry. -/
def mgrKill (st : TermState) (sid : String) : TermState :=
  match sessionsLookup st.sessions sid with
  | none => st
  | some h =>
    { st with
      ptys := markDead st.ptys h
      sessions := sessionsRemove st.sessions sid }

/-- `TerminalSessionManager.create(sessionId, ...)`: kill any existing
session with the same id, then spawn (`spawnOk = false` models
`pty.spawn` throwing, in which case the catch block returns `null` without
registering anything). -/
def mgrCreate (st : TermState) (sid : String) (spawnOk : Bool) : TermState :=
  let st1 := if (sessionsLookup st.sessions sid).isSome then mgrKill st sid else st
  if spawnOk then
    { ptys := st1.ptys ++ [{ handle := st1.nextHandle, sid := sid, alive := true, exitDelivered := false }]
      sessions := st1.sessions ++ [(sid, st1.nextHandle)]
      nextHandle := st1.nextHandle + 1 }
  else st1

/-- Delivery of the exit notification for pty `h` (only a dead process
whose notification is still pending can fire).  The handler registered in
`create` runs `this.sessions.delete(sessionId)` with the captured id —
unconditionally, even when the map entry now belongs to a newer pty. -/
def mgrDeliverExit (st : TermState) (h : Nat) : TermState :=
  match findPty st.ptys h with
  | none => st
  | some p =>
    if !p.alive && !p.exitDelivered then
      { st with
        ptys := markDelivered st.ptys h
        sessions := sessionsRemove st.sessions p.sid }
    else st

/-- Spontaneous death of the OS process behind pty `h` (the process
exits on its own). -/
def mgrProcDie (st : TermState) (h : Nat) : TermState :=
  { st with ptys := markDead st.ptys h }

inductive TermOp where
  | create (sid : String) (spawnOk : Bool)
  | kill (sid : String)
  | procDie (handle : Nat)
  | deliverExit (handle : Nat)
deriving Repr, DecidableEq

def termStep (st : TermState) : TermOp → TermState
  | .create sid ok => mgrCreate st sid ok
  | .kill sid => mgrKill st sid
  | .procDie h => mgrProcDie st h
  | .deliverExit h => mgrDeliverExit st h

def termRun (ops : List TermOp) : TermState :=
  ops.foldl termStep termInit

/-- The number of live pty processes serving session id `sid`: processes
spawned for `sid` whose OS process has not exited. -/
def livePtysFor (st : TermState) (sid : String) : Nat :=
  (st.ptys.filter fun p => p.alive && p.sid == sid).length

/-- The name predicate of the directory-walk claim: not denylisted, and
not hidden unless it is `.env.example`. -/
def claimNodeNameOk (n : String) : Bool :=
  !(SKIP_DIRECTORIES.contains n) && (!(n.startsWith ".") || n == ".env.example")

/-- The inductive invariant of one bash execution: stdout never exceeds the
cap plus the truncation marker, stays within the cap while the process has
not been killed, and — whenever the process was killed without the promise
being settled (the truncation path) — contains the truncation marker. -/
def BashInv (st : BashState) : Prop :=
  st.stdout.length ≤ MAX_OUTPUT_SIZE + truncationMarker.length ∧
  (st.killed = false → st.stdout.length ≤ MAX_OUTPUT_SIZE) ∧
  (st.killed = true → st.resolved = none →
    containsSubStr truncationMarker st.stdout = true)


/-! # Claim theorems -/

/-- **C8.** For every prompt whose whitespace-normalized form has length at
most 50, the generated session title equals that normalized form verbatim;
for every longer prompt, the title is exactly the first 50 characters of
the normalized form followed by the 3-character suffix `"..."`, for a
total length of 53. -/
theorem generateTitle_truncation (prompt : String) :
    ((normalizedPrompt prompt).length ≤ 50 →
      generateTitle prompt = normalizedPrompt prompt) ∧
    (50 < (normalizedPrompt prompt).length →
      generateTitle prompt = jsSubstringTo (normalizedPrompt prompt) 50 ++ "..." ∧
      (generateTitle prompt).length = 53) := by
  constructor
  · intro h
    simp [generateTitle, h]
  · intro h
    have h2 : ¬ (normalizedPrompt prompt).length ≤ 50 := by omega
    refine ⟨by simp [generateTitle, h2], ?_⟩
    have hlen : (jsSubstringTo (normalizedPrompt prompt) 50).length = 50 := by
      show ((normalizedPrompt prompt).data.take 50).length = 50
      have : (normalizedPrompt prompt).data.length = (normalizedPrompt prompt).length := rfl
      rw [List.length_take]
      omega
    simp [generateTitle, h2, String.length_append, hlen]
    rfl

theorem generateTitle_truncation_witness :
    (50 < (normalizedPrompt (String.mk (List.replicate 60 'a'))).length ∧
      (generateTitle (String.mk (List.replicate 60 'a'))).length = 53) ∧
    ((normalizedPrompt "  hi   there ").length ≤ 50 ∧
      generateTitle "  hi   there " = "hi there") :=
  ⟨⟨by decide, ((generateTitle_truncation (String.mk (List.replicate 60 'a'))).2 (by decide)).2⟩,
   ⟨by decide, (generateTitle_truncation "  hi   there ").1 (by decide)⟩⟩

theorem sessionsGet_set (st : SessionMap) (id : String) (v : SessionMetadata) :
    sessionsGet (sessionsSet st id v) id = some v := by
  induction st with
  | nil => simp [sessionsSet, sessionsGet]
  | cons kv rest ih =>
    obtain ⟨k, w⟩ := kv
    by_cases hk : k = id
    · simp [sessionsSet, sessionsGet, hk]
    · simp [sessionsSet, sessionsGet, hk, ih]

/-- **C2.** `upsert(id, prompt, directory)` on an unknown id creates a
record with message count 1 and zero accumulated token/cost totals (and
stores it under `id`); on a known id it increments the message count by
exactly 1 and never decreases the accumulated `totalTokens` or (for a
non-negative usage delta) `totalCostUsd`. -/
theorem upsert_counts_and_totals (st : SessionMap) (id prompt directory now : String) :
    (sessionsGet st id = none →
      ((storeUpsert st id prompt directory now none).2.messageCount = 1 ∧
       (storeUpsert st id prompt directory now none).2.totalTokens = ⟨0, 0⟩ ∧
       (storeUpsert st id prompt directory now none).2.totalCostUsd = 0 ∧
       sessionsGet (storeUpsert st id prompt directory now none).1 id =
         some (storeUpsert st id prompt directory now none).2)) ∧
    (∀ s₀ usage, sessionsGet st id = some s₀ → 0 ≤ addedCost usage →
      ((storeUpsert st id prompt directory now usage).2.messageCount = s₀.messageCount + 1 ∧
       s₀.totalTokens.input ≤ (storeUpsert st id prompt directory now usage).2.totalTokens.input ∧
       s₀.totalTokens.output ≤ (storeUpsert st id prompt directory now usage).2.totalTokens.output ∧
       s₀.totalCostUsd ≤ (storeUpsert st id prompt directory now usage).2.totalCostUsd ∧
       sessionsGet (storeUpsert st id prompt directory now usage).1 id =
         some (storeUpsert st id prompt directory now usage).2)) := by
  constructor
  · intro h
    simp [storeUpsert, h, addedCost, sessionsGet_set]
  · intro s₀ usage h hcost
    refine ⟨?_, ?_, ?_, ?_, ?_⟩
    · simp [storeUpsert, h]
    · simp only [storeUpsert, h]
      cases usage <;> simp
    · simp only [storeUpsert, h]
      cases usage <;> simp
    · simp only [storeUpsert, h]
      exact le_add_of_nonneg_right hcost
    · simp only [storeUpsert, h]
      exact sessionsGet_set ..

theorem upsert_counts_and_totals_witness :
    (sessionsGet [] "s1" = none ∧
      (storeUpsert [] "s1" "hello world" "/w" "t0" none).2.messageCount = 1 ∧
      (storeUpsert [] "s1" "hello world" "/w" "t0" none).2.totalTokens = ⟨0, 0⟩ ∧
      (storeUpsert [] "s1" "hello world" "/w" "t0" none).2.totalCostUsd = 0) ∧
    ((storeUpsert (storeUpsert [] "s1" "hello world" "/w" "t0" none).1 "s1" "again" "/w" "t1"
        (some ⟨5, 7, some 2⟩)).2.messageCount =
      (storeUpsert [] "s1" "hello world" "/w" "t0" none).2.messageCount + 1) := by
  refine ⟨⟨rfl, ?_, ?_, ?_⟩, ?_⟩
  · exact ((upsert_counts_and_totals [] "s1" "hello world" "/w" "t0").1 rfl).1
  · exact ((upsert_counts_and_totals [] "s1" "hello world" "/w" "t0").1 rfl).2.1
  · exact ((upsert_counts_and_totals [] "s1" "hello world" "/w" "t0").1 rfl).2.2.1
  · exact ((upsert_counts_and_totals (storeUpsert [] "s1" "hello world" "/w" "t0" none).1
      "s1" "again" "/w" "t1").2 (storeUpsert [] "s1" "hello world" "/w" "t0" none).2
      (some ⟨5, 7, some 2⟩) (by decide) (by decide)).1

theorem getTotalUsage_foldl (st : SessionMap) (acc : TotalUsage) :
    st.foldl
      (fun acc kv =>
        { input := acc.input + kv.2.totalTokens.input
          output := acc.output + kv.2.totalTokens.output
          costUsd := acc.costUsd + kv.2.totalCostUsd })
      acc =
      { input := acc.input + (st.map (fun kv => kv.2.totalTokens.input)).sum
        output := acc.output + (st.map (fun kv => kv.2.totalTokens.output)).sum
        costUsd := acc.costUsd + (st.map (fun kv => kv.2.totalCostUsd)).sum } := by
  induction st generalizing acc with
  | nil => simp
  | cons kv rest ih =>
    simp only [List.foldl_cons, List.map_cons, List.sum_cons, ih]
    congr 1 <;> ring

/-- **C6.** When no external stats file is present, `getTotalUsage()`
returns exactly the componentwise sum over all stored sessions: summed
`totalTokens.input`, summed `totalTokens.output` and summed
`totalCostUsd`. -/
theorem getTotalUsage_fallback_sum (st : SessionMap) :
    getTotalUsage st none =
      { input := (st.map (fun kv => kv.2.totalTokens.input)).sum
        output := (st.map (fun kv => kv.2.totalTokens.output)).sum
        costUsd := (st.map (fun kv => kv.2.totalCostUsd)).sum } := by
  simp only [getTotalUsage, getClaudeCodeUsage]
  rw [getTotalUsage_foldl]
  congr 1 <;> simp

/-- **C3, counterexample.** The claim states that the event sequence
yielded by `streamTask` begins with a `connected` event.  At the concrete
invocation below, the sequence yielded by `streamTask` consists of a single
`token` event carrying the session id — it contains no `connected` event at
all (the `connected` SSE frame is written by the route handler, outside the
generator, and the generator performs no Session Store upsert). -/
theorem streamTask_first_event_cex :
    streamTask "abc" [] = [AgentStreamEvent.tokenSession "abc"] ∧
    (streamTask "abc" []).filter AgentStreamEvent.isConnected = [] := by
  decide

theorem streamTaskGo_no_connected (sessionId : String) (turns : List AgentTurn) :
    (streamTaskGo sessionId turns).all (fun e => !e.isConnected) = true := by
  induction turns with
  | nil => rfl
  | cons t rest ih =>
    simp only [streamTaskGo]
    by_cases h : t.toolUses.isEmpty
    · simp [h, List.all_append, List.all_map, AgentStreamEvent.isConnected]
    · have h1 : ((List.map AgentStreamEvent.tokenText t.textDeltas).all
          fun e => !e.isConnected) = true := by
        simp [List.all_map, AgentStreamEvent.isConnected]
      have h2 : ((t.toolUses.flatMap fun u =>
          [AgentStreamEvent.toolUse u.id u.name, AgentStreamEvent.toolResult u.id u.result]).all
          fun e => !e.isConnected) = true := by
        rw [List.all_eq_true]
        intro e he
        simp only [List.mem_flatMap, List.mem_cons, List.mem_singleton] at he
        obtain ⟨u, _, hu⟩ := he
        rcases hu with h3 | h3 | h3
        · subst h3; rfl
        · subst h3; rfl
        · cases h3
      simp [h, List.all_append, h1, h2, ih]

/-- **C3, amended.** The first event yielded by `streamTask` is a `token`
event carrying the resolved session id; `streamTask` itself never yields a
`connected` event and performs no Session Store upsert — the single
`connected` SSE frame (which carries no session id) is written by the
`GET /api/agent/stream` route handler before it consumes the generator. -/
theorem streamTask_first_event (sessionId : String) (turns : List AgentTurn) :
    (streamTask sessionId turns).head? = some (.tokenSession sessionId) ∧
    (streamTask sessionId turns).all (fun e => !e.isConnected) = true ∧
    (streamRouteFrames sessionId turns).head? = some .connectedFrame := by
  refine ⟨rfl, ?_, rfl⟩
  simp only [streamTask, List.all_cons, Bool.and_eq_true]
  exact ⟨rfl, streamTaskGo_no_connected sessionId turns⟩

/-- **C5.** The claimed invariant — at most one live pty process per
session id, and exactly one immediately after a `create` on an id that had
a live process — is broken by the code: `kill` terminates the old pty, but
the exit callback registered at spawn time runs
`this.sessions.delete(sessionId)` for its captured id when the exit
notification is delivered later.  In the trace below, the old pty's exit
notification (delivered after a new pty has been registered under the same
id) deletes the new pty's map entry; the next `create` therefore misses
the map, skips the kill, and spawns a second pty while the previous one is
still alive: two live pty processes for the same session id. -/
theorem terminal_two_live_ptys :
    livePtysFor
      (termRun [.create "s" true, .create "s" true, .deliverExit 0, .create "s" true]) "s" = 2 ∧
    (termRun [.create "s" true, .create "s" true, .deliverExit 0, .create "s" true]).sessions =
      [("s", 2)] := by
  decide

theorem claimNodeNameOk_of_not_skip (n : String) (h : skipEntry n = false) :
    claimNodeNameOk n = true := by
  simp only [skipEntry, Bool.or_eq_false_iff, Bool.and_eq_false_iff] at h
  obtain ⟨h1, h2⟩ := h
  simp only [claimNodeNameOk, Bool.and_eq_true, Bool.not_eq_true', Bool.or_eq_true,
    Bool.not_eq_true]
  refine ⟨h2, ?_⟩
  rcases h1 with h1 | h1
  · exact Or.inl h1
  · right
    simp only [ne_eq, decide_eq_false_iff_not, not_not] at h1
    simp [h1]

theorem buildTreeAux_names_ok (maxDepth currentDepth : Nat) (es : List FSEntry)
    (basePath : String) :
    forestAllNames claimNodeNameOk (buildTreeAux maxDepth currentDepth es basePath) = true := by
  induction maxDepth, currentDepth, es, basePath using buildTreeAux.induct with
  | case1 =>
    simp [buildTreeAux, forestAllNames]
  | case2 a b c d e f ih =>
    simp only [buildTreeAux, f, if_pos]
    exact ih
  | case3 a b c d e f g ih2 ih1 =>
    have hok : claimNodeNameOk c.name = true :=
      claimNodeNameOk_of_not_skip c.name (by simpa using f)
    simp only [buildTreeAux]
    rw [if_neg f]
    cases c with
    | file n =>
      simp only [FSEntry.name] at hok
      simp [forestAllNames, hok, ih1]
    | dir n entries =>
      simp only [FSEntry.name] at hok
      by_cases hlt : b < a
      · simp only [hlt, if_pos]
        simp [forestAllNames, hok, ih1]
        exact ih2 entries hlt
      · simp [forestAllNames, hok, ih1, hlt]

/-- **C7.** For every starting directory, every max-depth bound and every
starting depth/base path, the tree returned by `buildDirectoryTree`
contains no node with a denylisted name (`node_modules` etc.) and no node
whose name starts with a dot other than `.env.example`, at every depth. -/
theorem buildDirectoryTree_skips_denylist (entries : List FSEntry) (maxDepth currentDepth : Nat)
    (basePath : String) :
    forestAllNames claimNodeNameOk (buildDirectoryTree entries maxDepth currentDepth basePath) =
      true :=
  buildTreeAux_names_ok maxDepth currentDepth (entries.mergeSort entryLe) basePath

theorem isPrefixOf_self_append (l t : List Char) : l.isPrefixOf (l ++ t) = true := by
  induction l with
  | nil => simp [List.isPrefixOf]
  | cons c cs ih => simp [List.isPrefixOf, ih]

/-- **C10.** For every existing file and every integer `insert_line` —
including zero, negative values and values beyond the line count — the
`insert` command succeeds: the splice index is clamped into
`[0, number of lines]`, `new_str` is spliced in as the line at that index
(the line count grows by exactly one), and the returned message is the
success message, never an out-of-range error. -/
theorem insertCommand_clamps (filePath content : String) (insertLine : Int) (newStr : String) :
    insertClampIdx content insertLine ≤ (content.splitOn "\n").length ∧
    (insertCommand filePath content insertLine newStr).2 =
      String.intercalate "\n"
        ((content.splitOn "\n").take (insertClampIdx content insertLine) ++
          newStr :: (content.splitOn "\n").drop (insertClampIdx content insertLine)) ∧
    ((content.splitOn "\n").take (insertClampIdx content insertLine) ++
        newStr :: (content.splitOn "\n").drop (insertClampIdx content insertLine)).length =
      (content.splitOn "\n").length + 1 ∧
    ((content.splitOn "\n").take (insertClampIdx content insertLine) ++
        newStr :: (content.splitOn "\n").drop (insertClampIdx content insertLine))[insertClampIdx content insertLine]? =
      some newStr ∧
    ("Successfully inserted text at line ".data).isPrefixOf
      ((insertCommand filePath content insertLine newStr).1).data = true := by
  have hidx : insertClampIdx content insertLine ≤ (content.splitOn "\n").length := by
    simp only [insertClampIdx]
    omega
  refine ⟨hidx, rfl, ?_, ?_, ?_⟩
  · simp [List.length_append, List.length_take, List.length_drop]
    omega
  · rw [List.getElem?_append_right (by simp [List.length_take])]
    simp [List.length_take, Nat.min_eq_left hidx]
  · show ("Successfully inserted text at line ".data).isPrefixOf
      ("Successfully inserted text at line ".data ++
        (toString insertLine ++ " in " ++ filePath).data) = true
    exact isPrefixOf_self_append ..

theorem containsSubL_nil_pat (l : List Char) : containsSubL [] l = true := by
  cases l <;> simp [containsSubL, List.isPrefixOf]

theorem containsSubL_middle (a b c : List Char) : containsSubL b (a ++ b ++ c) = true := by
  induction a with
  | nil =>
    cases b with
    | nil => simpa using containsSubL_nil_pat c
    | cons x xs =>
      simp only [List.nil_append, containsSubL, Bool.or_eq_true]
      exact Or.inl (isPrefixOf_self_append ..)
  | cons d a ih =>
    simp only [List.cons_append, containsSubL, Bool.or_eq_true]
    exact Or.inr ih

theorem countOcc_eq_zero_of_not_contains (pat : List Char) (l : List Char)
    (h : containsSubL pat l = false) : countOcc pat l = 0 := by
  induction l with
  | nil => simp [countOcc]
  | cons c cs ih =>
    simp only [containsSubL, Bool.or_eq_false_iff] at h
    obtain ⟨h1, h2⟩ := h
    rw [countOcc, if_neg (by simp [h1])]
    exact ih h2

theorem replaceFirstL_nil_pat (rep l : List Char) :
    replaceFirstL [] rep l = getSubstitution [] [] l rep ++ l := by
  simp [replaceFirstL]

theorem getSubstitution_no_dollar (matched before after rep : List Char)
    (h : ('$' : Char) ∉ rep) : getSubstitution matched before after rep = rep := by
  induction rep with
  | nil => rfl
  | cons c rest ih =>
    cases rest with
    | nil => rfl
    | cons d rest2 =>
      rw [getSubstitution, if_neg (fun hc => h (by simp [hc]))]
      rw [ih (fun hm => h (List.mem_cons_of_mem c hm))]

theorem replaceFirstGo_decomp (pat rep content : List Char) (pre : List Char)
    (hc : containsSubL pat content = true) (hne : pat ≠ []) :
    ∃ p s, content = p ++ pat ++ s ∧
      replaceFirstGo pat rep pre content =
        p ++ getSubstitution pat (pre.reverse ++ p) s rep ++ s := by
  induction content generalizing pre with
  | nil =>
    rw [containsSubL] at hc
    simp [List.isEmpty_iff, hne] at hc
  | cons c cs ih =>
    by_cases hp : pat.isPrefixOf (c :: cs)
    · have hpre : pat <+: c :: cs := by
        rwa [← List.isPrefixOf_iff_prefix]
      obtain ⟨t, ht⟩ := hpre
      refine ⟨[], t, by simp [ht], ?_⟩
      rw [replaceFirstGo, if_pos hp, ← ht]
      simp [List.drop_left]
    · simp only [containsSubL, hp, Bool.false_or] at hc
      obtain ⟨p, s, h1, h2⟩ := ih (c :: pre) hc
      refine ⟨c :: p, s, by simp [h1], ?_⟩
      rw [replaceFirstGo, if_neg hp, h2]
      simp

theorem replaceFirstL_decomp (pat rep content : List Char)
    (hc : containsSubL pat content = true) (hne : pat ≠ []) :
    ∃ p s, content = p ++ pat ++ s ∧
      replaceFirstL pat rep content = p ++ getSubstitution pat p s rep ++ s := by
  obtain ⟨p, s, h1, h2⟩ := replaceFirstGo_decomp pat rep content [] hc hne
  refine ⟨p, s, h1, ?_⟩
  rw [replaceFirstL, if_neg (by simp [List.isEmpty_iff, hne]), h2]
  simp

/-- **C1, counterexample.** The claim states that after a successful
`str_replace` (old_str occurring exactly once) old_str is no longer
present in the file content.  For the file `"a"` with `old_str = "a"`
(exactly one occurrence) and `new_str = "aa"`, the command succeeds and
rewrites the file to `"aa"` — in which old_str is still present. -/
theorem strReplace_old_still_present_cex :
    occurrencesJs "a" "a" = 1 ∧
    strReplaceCommand "f" "a" "a" "aa" =
      .written "aa" "Successfully replaced text in f" ∧
    containsSubStr "a" "aa" = true := by
  have hocc : occurrencesJs "a" "a" = 1 := by
    simp [occurrencesJs, countOcc, List.isPrefixOf, String.data]
  refine ⟨hocc, ?_, by decide⟩
  rw [strReplaceCommand]
  rw [if_neg (by omega), if_neg (by omega)]
  rfl

/-- **C1, amended.** For a file containing `old_str` zero times (by the
split-count the source uses), `str_replace` returns an error mentioning
"not found" and does not write the file; for two or more occurrences it
returns an error mentioning the occurrence count, again without writing;
for exactly one occurrence it rewrites the file with that single
occurrence replaced by the JavaScript substitution of `new_str` (the
content decomposes as `prefix ++ old_str ++ suffix` and is rewritten to
`prefix ++ GetSubstitution(new_str) ++ suffix`, where `$$`, `$&`, a `$`
followed by a backquote and a `$` followed by a quote in `new_str` are
expanded; when `new_str` contains no `$` at all it is inserted verbatim).
`old_str` may still be present afterwards when the substituted
replacement contains it or a new occurrence forms at the splice
boundaries. -/
theorem strReplace_contract (filePath content oldStr newStr : String) :
    (occurrencesJs content oldStr = 0 →
      strReplaceCommand filePath content oldStr newStr =
        .error "Error: old_str not found in file. Make sure the text matches exactly, including whitespace." ∧
      containsSubStr "not found"
        "Error: old_str not found in file. Make sure the text matches exactly, including whitespace." = true) ∧
    (1 < occurrencesJs content oldStr →
      strReplaceCommand filePath content oldStr newStr =
        .error ("Error: old_str appears " ++ toString (occurrencesJs content oldStr) ++
          " times in file. It must be unique. Add more context to make it unique.") ∧
      containsSubStr (toString (occurrencesJs content oldStr))
        ("Error: old_str appears " ++ toString (occurrencesJs content oldStr) ++
          " times in file. It must be unique. Add more context to make it unique.") = true) ∧
    (occurrencesJs content oldStr = 1 →
      ∃ p s, content.data = p ++ oldStr.data ++ s ∧
        strReplaceCommand filePath content oldStr newStr =
          .written ⟨p ++ getSubstitution oldStr.data p s newStr.data ++ s⟩
            ("Successfully replaced text in " ++ filePath)) ∧
    (occurrencesJs content oldStr = 1 → ('$' : Char) ∉ newStr.data →
      ∃ p s, content.data = p ++ oldStr.data ++ s ∧
        strReplaceCommand filePath content oldStr newStr =
          .written ⟨p ++ newStr.data ++ s⟩
            ("Successfully replaced text in " ++ filePath)) := by
  have main3 : occurrencesJs content oldStr = 1 →
      ∃ p s, content.data = p ++ oldStr.data ++ s ∧
        strReplaceCommand filePath content oldStr newStr =
          .written ⟨p ++ getSubstitution oldStr.data p s newStr.data ++ s⟩
            ("Successfully replaced text in " ++ filePath) := by
    intro h
    rw [strReplaceCommand, if_neg (by omega), if_neg (by omega)]
    by_cases he : oldStr.data = []
    · refine ⟨[], content.data, by simp [he], ?_⟩
      rw [he, replaceFirstL_nil_pat]
      simp
    · have hocc1 : countOcc oldStr.data content.data = 1 := by
        rw [occurrencesJs, if_neg (by simp [List.isEmpty_iff, he])] at h
        omega
      have hcont : containsSubL oldStr.data content.data = true := by
        by_contra hcon
        rw [Bool.not_eq_true] at hcon
        rw [countOcc_eq_zero_of_not_contains _ _ hcon] at hocc1
        omega
      obtain ⟨p, s, h1, h2⟩ := replaceFirstL_decomp oldStr.data newStr.data content.data hcont he
      exact ⟨p, s, h1, by rw [h2]⟩
  refine ⟨?_, ?_, main3, ?_⟩
  · intro h
    rw [strReplaceCommand, if_pos h]
    exact ⟨rfl, by decide⟩
  · intro h
    rw [strReplaceCommand, if_neg (by omega), if_pos h]
    refine ⟨rfl, ?_⟩
    show containsSubL (toString (occurrencesJs content oldStr)).data
      (("Error: old_str appears ".data ++ (toString (occurrencesJs content oldStr)).data) ++
        " times in file. It must be unique. Add more context to make it unique.".data) = true
    exact containsSubL_middle ..
  · intro h hd
    obtain ⟨p, s, h1, h2⟩ := main3 h
    rw [getSubstitution_no_dollar _ _ _ _ hd] at h2
    exact ⟨p, s, h1, h2⟩

theorem strReplace_contract_witness :
    (occurrencesJs "hello" "xyz" = 0 ∧
      strReplaceCommand "f" "hello" "xyz" "q" =
        .error "Error: old_str not found in file. Make sure the text matches exactly, including whitespace.") ∧
    (1 < occurrencesJs "aa bb aa" "aa" ∧
      strReplaceCommand "f" "aa bb aa" "aa" "q" =
        .error ("Error: old_str appears " ++ toString (occurrencesJs "aa bb aa" "aa") ++
          " times in file. It must be unique. Add more context to make it unique.")) ∧
    (occurrencesJs "ab cd" "cd" = 1 ∧ ('$' : Char) ∉ "ef".data ∧
      ∃ p s, "ab cd".data = p ++ "cd".data ++ s ∧
        strReplaceCommand "f" "ab cd" "cd" "ef" =
          .written ⟨p ++ "ef".data ++ s⟩ ("Successfully replaced text in " ++ "f")) ∧
    (occurrencesJs "ab" "b" = 1 ∧
      (∃ p s, "ab".data = p ++ "b".data ++ s ∧
        strReplaceCommand "f" "ab" "b" "$&$&" =
          .written ⟨p ++ getSubstitution "b".data p s "$&$&".data ++ s⟩
            ("Successfully replaced text in " ++ "f")) ∧
      strReplaceCommand "f" "ab" "b" "$&$&" =
        .written "abb" ("Successfully replaced text in " ++ "f")) := by
  have h0 : occurrencesJs "hello" "xyz" = 0 := by
    simp [occurrencesJs, countOcc, List.isPrefixOf, String.data]
  have h2 : occurrencesJs "aa bb aa" "aa" = 2 := by
    simp [occurrencesJs, countOcc, List.isPrefixOf, String.data]
  have h1 : occurrencesJs "ab cd" "cd" = 1 := by
    simp [occurrencesJs, countOcc, List.isPrefixOf, String.data]
  have h1b : occurrencesJs "ab" "b" = 1 := by
    simp [occurrencesJs, countOcc, List.isPrefixOf, String.data]
  refine ⟨⟨h0, ?_⟩, ⟨by omega, ?_⟩, ⟨h1, by decide, ?_⟩, ⟨h1b, ?_, ?_⟩⟩
  · exact ((strReplace_contract "f" "hello" "xyz" "q").1 h0).1
  · exact ((strReplace_contract "f" "aa bb aa" "aa" "q").2.1 (by omega)).1
  · exact (strReplace_contract "f" "ab cd" "cd" "ef").2.2.2 h1 (by decide)
  · exact (strReplace_contract "f" "ab" "b" "$&$&").2.2.1 h1b
  · rw [strReplaceCommand]
    rw [if_neg (by omega), if_neg (by omega)]
    rfl

/-- **C4, counterexample.** The claim quantifies over *every* input in
which a "Current session" line precedes a "42% used" line followed by the
reset line.  The input below is such a string, but a later session block
overwrites the `currentSession` field, so the parser does not return the
42% record. -/
theorem parseUsage_last_block_wins_cex :
    (parseUsageOutput
        "Current session\n42% used\nResets 7:59am (America/New_York)\nCurrent session\n10% used\nResets 8:00am (UTC)").currentSession =
      some { name := "Current Session", percentUsed := 10, resetTime := "8:00am",
             resetTimezone := some "UTC" } ∧
    (parseUsageOutput
        "Current session\n42% used\nResets 7:59am (America/New_York)\nCurrent session\n10% used\nResets 8:00am (UTC)").currentSession ≠
      some { name := "Current Session", percentUsed := 42, resetTime := "7:59am",
             resetTimezone := some "America/New_York" } := by
  decide

theorem parseUsageGo_cons (sec : String) (res : ClaudeUsageData) (line : String)
    (rest : List String) :
    parseUsageGo sec res (line :: rest) =
      parseUsageGo (sectionOf sec (jsTrimStr line))
        (if containsSubStr "% used" (jsTrimStr line) then
          storeLimit res (sectionOf sec (jsTrimStr line))
            { name := limitName (sectionOf sec (jsTrimStr line))
              percentUsed := parsePercentage (jsTrimStr line)
              resetTime := (parseResetTime (jsTrimStr (rest.headD ""))).1
              resetTimezone := (parseResetTime (jsTrimStr (rest.headD ""))).2 }
         else res) rest := by
  rw [parseUsageGo]

theorem parseUsageGo_append_no_percent (ls : List String) (sec : String)
    (res : ClaudeUsageData) (rest : List String)
    (h : ∀ l ∈ ls, containsSubStr "% used" (jsTrimStr l) = false) :
    parseUsageGo sec res (ls ++ rest) =
      parseUsageGo (ls.foldl (fun s l => sectionOf s (jsTrimStr l)) sec) res rest := by
  induction ls generalizing sec with
  | nil => rfl
  | cons l ls ih =>
    have hl : containsSubStr "% used" (jsTrimStr l) = false := h l (by simp)
    rw [List.cons_append, parseUsageGo_cons, if_neg (by simp [hl]), List.foldl_cons]
    exact ih _ (fun x hx => h x (by simp [hx]))

theorem parseUsageGo_no_percent_const (ls : List String) (sec : String)
    (res : ClaudeUsageData)
    (h : ∀ l ∈ ls, containsSubStr "% used" (jsTrimStr l) = false) :
    parseUsageGo sec res ls = res := by
  have := parseUsageGo_append_no_percent ls sec res [] h
  simpa using this

theorem sectionOf_session_of_no_week (l : String)
    (h : containsSubStr "Current week" l = false) : sectionOf "session" l = "session" := by
  by_cases hs : containsSubStr "Current session" l = true
  · simp [sectionOf, hs]
  · simp [sectionOf, hs, h]

theorem sectionFold_session (ls : List String)
    (h : ∀ l ∈ ls, containsSubStr "Current week" (jsTrimStr l) = false) :
    ls.foldl (fun s l => sectionOf s (jsTrimStr l)) "session" = "session" := by
  induction ls with
  | nil => rfl
  | cons l ls ih =>
    rw [List.foldl_cons, sectionOf_session_of_no_week _ (h l (by simp))]
    exact ih (fun x hx => h x (by simp [hx]))

/-- **C4, amended.** Whenever a line containing "Current session" is
followed — with no intervening "% used" line and no intervening
"Current week" section header — by the line `"███░░░  42% used"` whose
immediately following line is `"Resets 7:59am (America/New_York)"`, and no
other "% used" line occurs anywhere else in the input, the parser returns
`currentSession = {name: "Current Session", percentUsed: 42, resetTime:
"7:59am", resetTimezone: "America/New_York"}`.  (Without these side
conditions a later "% used" line, or a section switch between the header
and the percent line, changes the result, as the counterexample shows.) -/
theorem parseUsage_current_session (pre mid post : List String)
    (hpre : ∀ l ∈ pre, containsSubStr "% used" (jsTrimStr l) = false)
    (hmidp : ∀ l ∈ mid, containsSubStr "% used" (jsTrimStr l) = false)
    (hmidw : ∀ l ∈ mid, containsSubStr "Current week" (jsTrimStr l) = false)
    (hpost : ∀ l ∈ post, containsSubStr "% used" (jsTrimStr l) = false) :
    (parseUsageGo "" emptyUsageData
        (pre ++ ("Current session" ::
          (mid ++ ("███░░░  42% used" ::
            ("Resets 7:59am (America/New_York)" :: post)))))).currentSession =
      some { name := "Current Session", percentUsed := 42, resetTime := "7:59am",
             resetTimezone := some "America/New_York" } := by
  rw [parseUsageGo_append_no_percent pre "" emptyUsageData
    ("Current session" :: (mid ++ ("███░░░  42% used" ::
      ("Resets 7:59am (America/New_York)" :: post)))) hpre]
  rw [parseUsageGo_cons, if_neg (by decide)]
  have hsec : sectionOf (pre.foldl (fun s l => sectionOf s (jsTrimStr l)) "")
      (jsTrimStr "Current session") = "session" := by
    simp [sectionOf, (by decide : containsSubStr "Current session" (jsTrimStr "Current session") = true)]
  rw [hsec]
  rw [parseUsageGo_append_no_percent mid "session" emptyUsageData
    ("███░░░  42% used" :: ("Resets 7:59am (America/New_York)" :: post)) hmidp,
    sectionFold_session mid hmidw]
  rw [parseUsageGo_cons, if_pos (by decide)]
  have hsec2 : sectionOf "session" (jsTrimStr "███░░░  42% used") = "session" := by decide
  rw [hsec2]
  rw [parseUsageGo_cons, if_neg (by decide)]
  rw [parseUsageGo_no_percent_const post _ _ hpost]
  simp only [List.headD_cons]
  decide

theorem parseUsage_current_session_witness :
    (∀ l ∈ ["Claude usage overview"], containsSubStr "% used" (jsTrimStr l) = false) ∧
    (∀ l ∈ ["────────"], containsSubStr "% used" (jsTrimStr l) = false) ∧
    (∀ l ∈ ["────────"], containsSubStr "Current week" (jsTrimStr l) = false) ∧
    (∀ l ∈ ["Esc to close"], containsSubStr "% used" (jsTrimStr l) = false) ∧
    (parseUsageGo "" emptyUsageData
        (["Claude usage overview"] ++ ("Current session" ::
          (["────────"] ++ ("███░░░  42% used" ::
            ("Resets 7:59am (America/New_York)" :: ["Esc to close"])))))).currentSession =
      some { name := "Current Session", percentUsed := 42, resetTime := "7:59am",
             resetTimezone := some "America/New_York" } :=
  ⟨by decide, by decide, by decide, by decide,
   parseUsage_current_session ["Claude usage overview"] ["────────"] ["Esc to close"]
     (by decide) (by decide) (by decide) (by decide)⟩

theorem containsSubL_exists (pat l : List Char) (h : containsSubL pat l = true) :
    ∃ a b, l = a ++ pat ++ b := by
  induction l with
  | nil =>
    rw [containsSubL, List.isEmpty_iff] at h
    exact ⟨[], [], by simp [h]⟩
  | cons c cs ih =>
    rw [containsSubL, Bool.or_eq_true] at h
    rcases h with h | h
    · obtain ⟨t, ht⟩ := List.isPrefixOf_iff_prefix.mp h
      exact ⟨[], t, by simp [← ht]⟩
    · obtain ⟨a, b, hab⟩ := ih h
      exact ⟨c :: a, b, by simp [hab]⟩

theorem containsSubL_append_right (pat a b : List Char) (h : containsSubL pat a = true) :
    containsSubL pat (a ++ b) = true := by
  obtain ⟨x, y, hxy⟩ := containsSubL_exists pat a h
  subst hxy
  have := containsSubL_middle x pat (y ++ b)
  simpa using this

theorem containsSubStr_append_right (pat a b : String) (h : containsSubStr pat a = true) :
    containsSubStr pat (a ++ b) = true := by
  show containsSubL pat.data (a.data ++ b.data) = true
  exact containsSubL_append_right pat.data a.data b.data h

theorem mem_of_containsSubL (pat l : List Char) (c : Char) (h : containsSubL pat l = true)
    (hc : c ∈ pat) : c ∈ l := by
  obtain ⟨a, b, hab⟩ := containsSubL_exists pat l h
  subst hab
  simp [hc]

theorem ne_nil_of_containsSubL (pat l : List Char) (c : Char) (h : containsSubL pat l = true)
    (hc : c ∈ pat) : l ≠ [] := by
  intro hl
  subst hl
  cases mem_of_containsSubL pat [] c h hc

theorem jsTrimL_ne_nil (l : List Char) (c : Char) (hc : c ∈ l)
    (hw : isJsWhitespace c = false) : jsTrimL l ≠ [] := by
  intro h
  rw [jsTrimL, List.reverse_eq_nil_iff, List.dropWhile_eq_nil_iff] at h
  have h1 : c ∈ l.dropWhile isJsWhitespace := by
    rcases List.mem_append.mp
        (by rw [List.takeWhile_append_dropWhile]; exact hc :
          c ∈ l.takeWhile isJsWhitespace ++ l.dropWhile isJsWhitespace) with h1 | h1
    · exact absurd (List.mem_takeWhile_imp h1) (by simp [hw])
    · exact h1
  have := h c (by simpa using h1)
  simp [hw] at this

theorem bashStep_preserves_inv (st : BashState) (e : BashEvent) (h : BashInv st) :
    BashInv (bashStep st e) := by
  obtain ⟨h1, h2, h3⟩ := h
  rw [bashStep.eq_def]
  by_cases hres : st.resolved.isSome = true
  · rw [if_pos hres]
    exact ⟨h1, h2, h3⟩
  · rw [if_neg hres]
    have hres2 : st.resolved = none := by
      cases hr : st.resolved
      · rfl
      · rw [hr] at hres
        simp at hres
    cases e with
    | stdoutData chunk =>
      dsimp only
      by_cases hfit : st.stdout.length + chunk.length ≤ MAX_OUTPUT_SIZE
      · rw [if_pos hfit]
        refine ⟨?_, ?_, ?_⟩
        · simp only [String.length_append]
          omega
        · intro _
          simp only [String.length_append]
          omega
        · intro hk hr
          exact containsSubStr_append_right _ _ chunk (h3 hk hr)
      · rw [if_neg hfit]
        by_cases hk : st.killed
        · rw [if_neg (by simp [hk])]
          exact ⟨h1, h2, h3⟩
        · rw [if_pos (by simp [hk])]
          have hstdout : st.stdout.length ≤ MAX_OUTPUT_SIZE := h2 (by simpa using hk)
          refine ⟨?_, ?_, ?_⟩
          · simp only [String.length_append]
            omega
          · intro hcontra
            simp at hcontra
          · intro _ _
            show containsSubL truncationMarker.data
              (st.stdout.data ++ truncationMarker.data) = true
            have := containsSubL_middle st.stdout.data truncationMarker.data []
            simpa using this
    | stderrData chunk =>
      dsimp only
      by_cases hfit : st.stderr.length + chunk.length ≤ MAX_OUTPUT_SIZE
      · rw [if_pos hfit]
        exact ⟨h1, h2, h3⟩
      · rw [if_neg hfit]
        exact ⟨h1, h2, h3⟩
    | close code =>
      dsimp only
      refine ⟨h1, h2, ?_⟩
      intro _ hr
      simp at hr
    | procError message =>
      dsimp only
      refine ⟨h1, h2, ?_⟩
      intro _ hr
      simp at hr
    | timeoutFire =>
      dsimp only
      by_cases hk : st.killed
      · rw [if_neg (by simp [hk])]
        exact ⟨h1, h2, h3⟩
      · rw [if_pos (by simp [hk])]
        refine ⟨h1, fun hc => h2 (by simpa using hk), ?_⟩
        intro _ hr
        simp at hr

theorem bashRun_inv (events : List BashEvent) : BashInv (bashRun events) := by
  have : ∀ st, BashInv st → BashInv (events.foldl bashStep st) := by
    induction events with
    | nil => intro st h; exact h
    | cons e es ih =>
      intro st h
      exact ih _ (bashStep_preserves_inv st e h)
  exact this bashInit ⟨by decide, fun _ => by decide, fun hk => by cases hk⟩

theorem bashStep_frozen (st : BashState) (e : BashEvent) (h : st.resolved.isSome = true) :
    bashStep st e = st := by
  rw [bashStep.eq_def, if_pos h]

theorem bashStep_settles (st : BashState) (e : BashEvent) (he : e.isSettling = true) :
    (bashStep st e).resolved.isSome = true := by
  rw [bashStep.eq_def]
  by_cases hres : st.resolved.isSome = true
  · rw [if_pos hres]
    exact hres
  · rw [if_neg hres]
    cases e with
    | close code => simp
    | procError message => simp
    | stdoutData chunk => cases he
    | stderrData chunk => cases he
    | timeoutFire => cases he

theorem bashFoldl_resolved (events : List BashEvent) (st : BashState)
    (h : st.resolved.isSome = true) :
    events.foldl bashStep st = st := by
  induction events with
  | nil => rfl
  | cons e es ih =>
    rw [List.foldl_cons, bashStep_frozen st e h]
    exact ih

theorem bashFoldl_settles (events : List BashEvent) (st : BashState)
    (h : ∃ e ∈ events, e.isSettling = true) :
    (events.foldl bashStep st).resolved.isSome = true := by
  induction events generalizing st with
  | nil => simp at h
  | cons e es ih =>
    rw [List.foldl_cons]
    by_cases he : e.isSettling = true
    · have hs := bashStep_settles st e he
      rw [bashFoldl_resolved es _ hs]
      exact hs
    · obtain ⟨f, hf, hfs⟩ := h
      rcases List.mem_cons.mp hf with rfl | hf2
      · exact absurd hfs he
      · exact ih (bashStep st e) ⟨f, hf2, hfs⟩

theorem bashRun_settles (events : List BashEvent)
    (h : ∃ e ∈ events, e.isSettling = true) :
    (bashRun events).resolved.isSome = true :=
  bashFoldl_settles events bashInit h

theorem contains_marker_ne_empty (s : String)
    (h : containsSubStr truncationMarker s = true) : s ≠ "" := by
  intro hc
  subst hc
  exact absurd h (by decide)

theorem bashCloseOutput_contains (stdout stderr : String) (code : Option Int)
    (h : containsSubStr truncationMarker stdout = true) :
    containsSubStr truncationMarker (bashCloseOutput stdout stderr code) = true := by
  have hbracket : ('[' : Char) ∈ truncationMarker.data := by decide
  have hmem : ('[' : Char) ∈ stdout.data :=
    mem_of_containsSubL _ _ _ h hbracket
  have htrim : jsTrimStr stdout ≠ "" := by
    intro hc
    apply jsTrimL_ne_nil stdout.data '[' hmem (by decide)
    have hdata : (jsTrimStr stdout).data = ("" : String).data := by rw [hc]
    simpa [jsTrimStr] using hdata
  have hne : stdout ≠ "" := contains_marker_ne_empty stdout h
  rw [bashCloseOutput.eq_def]
  dsimp only
  rw [if_pos htrim]
  have h2 : containsSubStr truncationMarker
      (if jsTrimStr stderr ≠ "" then
        (if stdout ≠ "" then stdout ++ "\n" else stdout) ++ "STDERR:\n" ++ stderr
       else stdout) = true := by
    by_cases hse : jsTrimStr stderr ≠ ""
    · rw [if_pos hse, if_pos hne]
      exact containsSubStr_append_right _ _ _ (containsSubStr_append_right _ _ _
        (containsSubStr_append_right _ _ _ h))
    · rw [if_neg hse]
      exact h
  set O2 := (if jsTrimStr stderr ≠ "" then
      (if stdout ≠ "" then stdout ++ "\n" else stdout) ++ "STDERR:\n" ++ stderr
    else stdout) with hO2
  have hO2ne : O2 ≠ "" := contains_marker_ne_empty O2 h2
  have h3 : containsSubStr truncationMarker
      (match code with
       | some c => if c ≠ 0 then (if O2 ≠ "" then O2 ++ "\n" else O2) ++ "Exit code: " ++ toString c
           else O2
       | none => O2) = true := by
    cases code with
    | none => exact h2
    | some c =>
      dsimp only
      by_cases hc : c ≠ 0
      · rw [if_pos hc, if_pos hO2ne]
        exact containsSubStr_append_right _ _ _ (containsSubStr_append_right _ _ _
          (containsSubStr_append_right _ _ _ h2))
      · rw [if_neg hc]
        exact h2
  set O3 := (match code with
     | some c => if c ≠ 0 then (if O2 ≠ "" then O2 ++ "\n" else O2) ++ "Exit code: " ++ toString c
         else O2
     | none => O2) with hO3
  rw [if_neg (contains_marker_ne_empty O3 h3)]
  exact h3

theorem bashStep_stdoutData_resolved (st : BashState) (chunk : String) :
    (bashStep st (.stdoutData chunk)).resolved = st.resolved := by
  rw [bashStep.eq_def]
  by_cases hres : st.resolved.isSome = true
  · rw [if_pos hres]
  · rw [if_neg hres]
    dsimp only
    by_cases hfit : st.stdout.length + chunk.length ≤ MAX_OUTPUT_SIZE
    · rw [if_pos hfit]
    · rw [if_neg hfit]
      by_cases hk : (!st.killed) = true
      · rw [if_pos hk]
      · rw [if_neg hk]

theorem bashStep_overflow (st : BashState) (chunk : String)
    (hres : st.resolved = none)
    (hover : ¬(st.stdout.length + chunk.length ≤ MAX_OUTPUT_SIZE))
    (hinv : BashInv st) :
    (bashStep st (.stdoutData chunk)).killed = true ∧
    containsSubStr truncationMarker (bashStep st (.stdoutData chunk)).stdout = true := by
  rw [bashStep.eq_def, if_neg (by simp [hres])]
  dsimp only
  rw [if_neg hover]
  by_cases hk : st.killed
  · rw [if_neg (by simp [hk])]
    exact ⟨hk, hinv.2.2 hk hres⟩
  · rw [if_pos (by simp [hk])]
    refine ⟨rfl, ?_⟩
    show containsSubL truncationMarker.data (st.stdout.data ++ truncationMarker.data) = true
    have := containsSubL_middle st.stdout.data truncationMarker.data []
    simpa using this

/-- **C9, amended.** One bash-tool execution, modelled over the trace of
events its handlers receive, satisfies: accumulated stdout never exceeds
the 100KB cap plus the truncation marker (and stays within the cap until
the process is killed); a `close` or `error` event always settles the
promise with a string; an overflowing stdout chunk kills the process and
puts the truncation marker into stdout, and the result delivered by the
subsequent `close` still contains the marker (though stderr output or an
exit-code line may follow it, so the result need not *end* with it); and
when the 30-second timer fires before completion and before a truncation
kill, the call resolves with the timeout message. -/
theorem bash_tool_bounded (events : List BashEvent) (chunk : String) (code : Option Int) :
    ((bashRun events).stdout.length ≤ MAX_OUTPUT_SIZE + truncationMarker.length) ∧
    ((bashRun events).killed = false → (bashRun events).stdout.length ≤ MAX_OUTPUT_SIZE) ∧
    ((∃ e ∈ events, e.isSettling = true) → (bashRun events).resolved.isSome = true) ∧
    ((bashRun events).resolved = none →
      ¬((bashRun events).stdout.length + chunk.length ≤ MAX_OUTPUT_SIZE) →
      (bashRun (events ++ [.stdoutData chunk])).killed = true ∧
      containsSubStr truncationMarker (bashRun (events ++ [.stdoutData chunk])).stdout = true) ∧
    ((bashRun events).resolved = none → (bashRun events).killed = true →
      ∃ out, (bashRun (events ++ [.close code])).resolved = some out ∧
        containsSubStr truncationMarker out = true) ∧
    ((bashRun events).resolved = none → (bashRun events).killed = false →
      (bashRun (events ++ [.timeoutFire])).resolved =
        some "Command timed out after 30 seconds") := by
  have hinv := bashRun_inv events
  refine ⟨hinv.1, hinv.2.1, bashRun_settles events, ?_, ?_, ?_⟩
  · intro hres hover
    rw [bashRun, List.foldl_append]
    exact bashStep_overflow _ chunk hres hover hinv
  · intro hres hk
    rw [bashRun, List.foldl_append]
    refine ⟨bashCloseOutput (bashRun events).stdout (bashRun events).stderr code, ?_, ?_⟩
    · show (bashStep (bashRun events) (.close code)).resolved = _
      rw [bashStep.eq_def, if_neg (by simp [hres])]
    · exact bashCloseOutput_contains _ _ code (hinv.2.2 hk hres)
  · intro hres hk
    rw [bashRun, List.foldl_append]
    show (bashStep (bashRun events) .timeoutFire).resolved = _
    rw [bashStep.eq_def, if_neg (by simp [hres])]
    dsimp only
    rw [if_pos (by simp [hk])]
    dsimp only
    congr 1

/-- **C9, counterexample.** The claim states that after the stdout cap is
exceeded "the result string ends with a truncation marker".  In the trace
below the command writes to stderr before flooding stdout; the `close`
handler appends the `STDERR:` section after the truncated stdout, so the
resolved result contains — but does not end with — the truncation
marker. -/
theorem bash_truncation_not_suffix_cex :
    handleBashTool false "find /"
        [.stderrData "boom",
         .stdoutData (String.mk (List.replicate (MAX_OUTPUT_SIZE + 1) 'a')),
         .close none] =
      some "\n[Output truncated - exceeded maximum size]\nSTDERR:\nboom" ∧
    containsSubStr truncationMarker
      "\n[Output truncated - exceeded maximum size]\nSTDERR:\nboom" = true ∧
    (truncationMarker.data.reverse).isPrefixOf
      ("\n[Output truncated - exceeded maximum size]\nSTDERR:\nboom".data.reverse) = false := by
  refine ⟨?_, by decide, by decide⟩
  have hbig : (String.mk (List.replicate (MAX_OUTPUT_SIZE + 1) 'a')).length =
      MAX_OUTPUT_SIZE + 1 := by
    show (List.replicate (MAX_OUTPUT_SIZE + 1) 'a').length = MAX_OUTPUT_SIZE + 1
    exact List.length_replicate (MAX_OUTPUT_SIZE + 1) 'a' 
  have h1 : bashStep bashInit (.stderrData "boom") =
      { stdout := "", stderr := "boom", killed := false, resolved := none } := by
    decide
  have h2 : bashStep { stdout := "", stderr := "boom", killed := false, resolved := none }
      (.stdoutData (String.mk (List.replicate (MAX_OUTPUT_SIZE + 1) 'a'))) =
      { stdout := "" ++ truncationMarker
        stderr := "boom"
        killed := true
        resolved := none } := by
    rw [bashStep.eq_def]
    rw [if_neg (by decide)]
    dsimp only
    rw [if_neg (by rw [hbig]; decide)]
    rw [if_pos (by decide)]
  have h3 : bashStep
      { stdout := "" ++ truncationMarker
        stderr := "boom"
        killed := true
        resolved := none } (.close none) =
      { stdout := "" ++ truncationMarker
        stderr := "boom"
        killed := true
        resolved := some "\n[Output truncated - exceeded maximum size]\nSTDERR:\nboom" } := by
    decide
  have hmain : (bashRun
      [.stderrData "boom",
       .stdoutData (String.mk (List.replicate (MAX_OUTPUT_SIZE + 1) 'a')),
       .close none]).resolved =
      some "\n[Output truncated - exceeded maximum size]\nSTDERR:\nboom" := by
    rw [bashRun, List.foldl_cons, h1, List.foldl_cons, h2, List.foldl_cons, h3, List.foldl_nil]
  rw [handleBashTool.eq_def]
  rw [if_neg (by decide), if_neg (by decide)]
  exact hmain

theorem bash_tool_bounded_witness :
    ((bashRun [BashEvent.stdoutData "hi", BashEvent.close (some 0)]).resolved.isSome = true) ∧
    ((bashRun
        [BashEvent.stdoutData (String.mk (List.replicate (MAX_OUTPUT_SIZE + 1) 'a'))]).killed =
          true ∧
      containsSubStr truncationMarker
        (bashRun
          [BashEvent.stdoutData
            (String.mk (List.replicate (MAX_OUTPUT_SIZE + 1) 'a'))]).stdout = true) ∧
    (∃ out,
      (bashRun ([BashEvent.stdoutData (String.mk (List.replicate (MAX_OUTPUT_SIZE + 1) 'a'))] ++
        [BashEvent.close none])).resolved = some out ∧
      containsSubStr truncationMarker out = true) ∧
    ((bashRun ([BashEvent.stderrData "x"] ++ [BashEvent.timeoutFire])).resolved =
      some "Command timed out after 30 seconds") := by
  have hbig : (String.mk (List.replicate (MAX_OUTPUT_SIZE + 1) 'a')).length =
      MAX_OUTPUT_SIZE + 1 := by
    show (List.replicate (MAX_OUTPUT_SIZE + 1) 'a').length = MAX_OUTPUT_SIZE + 1
    exact List.length_replicate (MAX_OUTPUT_SIZE + 1) 'a'
  have hover : ¬((bashRun ([] : List BashEvent)).stdout.length +
      (String.mk (List.replicate (MAX_OUTPUT_SIZE + 1) 'a')).length ≤ MAX_OUTPUT_SIZE) := by
    rw [hbig]
    decide
  have h2 := (bash_tool_bounded []
    (String.mk (List.replicate (MAX_OUTPUT_SIZE + 1) 'a')) none).2.2.2.1 rfl hover
  rw [List.nil_append] at h2
  have hres3 : (bashRun
      [BashEvent.stdoutData (String.mk (List.replicate (MAX_OUTPUT_SIZE + 1) 'a'))]).resolved =
      none := by
    rw [bashRun, List.foldl_cons, List.foldl_nil, bashStep_stdoutData_resolved]
    rfl
  have h3 := (bash_tool_bounded
    [BashEvent.stdoutData (String.mk (List.replicate (MAX_OUTPUT_SIZE + 1) 'a'))] "" none).2.2.2.2.1
    hres3 h2.1
  have h4 := (bash_tool_bounded [BashEvent.stderrData "x"] "" none).2.2.2.2.2
    (by decide) (by decide)
  exact ⟨(bash_tool_bounded [BashEvent.stdoutData "hi", BashEvent.close (some 0)] "" none).2.2.1
    ⟨BashEvent.close (some 0), by decide, by decide⟩, h2, h3, h4⟩
